import Mathlib

/-!
Verification of the upl file-upload web application (src/main.go).

Paths and Go strings are modelled as lists of characters; file contents as
lists of bytes (natural numbers).  The path helpers from the Go standard
library used by the program (path/filepath Clean, Base and Join, net
JoinHostPort and SplitHostPort) are translated below for the Unix separator,
followed by the program's own functions: the filename sanitization inlined in
uploadFiles, the upload loop, listCurrentDir, listFiles and parseCli.
-/

namespace Upl

/-- Go strings are byte sequences; modelled as lists of characters. -/
abbrev GoStr := List Char

/-- File contents, byte sequences. -/
abbrev Bytes := List Nat

/-- Character test used by Go os.IsPathSeparator on Unix. -/
def isSepChar (c : Char) : Bool := c = '/'

/-- Splitting a character list on the path separator, as strings.Split does:
the chunks between separators, one chunk more than there are separators. -/
def splitSeps : List Char → List (List Char)
  | [] => [[]]
  | c :: cs =>
    if c = '/' then [] :: splitSeps cs
    else
      match splitSeps cs with
      | [] => [[c]]
      | g :: gs => (c :: g) :: gs

/-- Stack-based component processing of Go path/filepath Clean.  The output
stack is kept reversed (head is the most recent component).  Empty and "."
components are dropped; ".." pops the previous component when one is
poppable, is dropped at the root of a rooted path, and is kept when a
relative path has nothing left to pop. -/
def cleanRev (rooted : Bool) : List (List Char) → List (List Char) → List (List Char)
  | stk, [] => stk
  | stk, c :: rest =>
    if c = [] ∨ c = ['.'] then cleanRev rooted stk rest
    else if c = ['.', '.'] then
      match stk with
      | [] => if rooted then cleanRev rooted [] rest else cleanRev rooted [['.', '.']] rest
      | top :: stk2 =>
        if top = ['.', '.'] then cleanRev rooted (['.', '.'] :: top :: stk2) rest
        else cleanRev rooted stk2 rest
    else cleanRev rooted (c :: stk) rest

/-- Whether a path is rooted (begins with the separator). -/
def isRooted (cs : List Char) : Bool := cs.head? = some '/'

/-- Model of Go path/filepath Clean for the Unix separator: purely lexical
processing that collapses repeated separators, drops "." components,
resolves ".." against preceding components, keeps leading ".." components of
relative paths and drops ".." at the root of rooted paths; the empty result
becomes ".". -/
def goClean (cs : List Char) : List Char :=
  let comps := cleanRev (isRooted cs) [] (splitSeps cs)
  let body := List.intercalate ['/'] comps.reverse
  if isRooted cs then '/' :: body
  else if body = [] then ['.'] else body

/-- Second step of Go path/filepath Base, applied to the reversal of the
path with its trailing separators removed: a path of only separators gives
"/", otherwise the suffix after the last separator (the reversed prefix of
separator-free characters) is returned. -/
def goBaseStrip (r : List Char) : List Char :=
  if r = [] then ['/']
  else (r.takeWhile (fun c => ! isSepChar c)).reverse

/-- Model of Go path/filepath Base for the Unix separator: "." for the empty
string, otherwise trailing separators are removed, a path of only separators
gives "/", and otherwise the suffix after the last separator is returned.
The suffix is computed on the reversed list by goBaseStrip. -/
def goBase (cs : List Char) : List Char :=
  if cs = [] then ['.']
  else goBaseStrip (cs.reverse.dropWhile isSepChar)

/-- Model of Go path/filepath Join on two elements: empty leading elements
are skipped, the rest are joined with the separator and the result is
Cleaned; all elements empty gives the empty string. -/
def goJoin (a b : List Char) : List Char :=
  if a = [] ∧ b = [] then []
  else if a = [] then goClean b
  else goClean (a ++ '/' :: b)

/-- The filename sanitization inlined in uploadFiles (src/main.go lines
255-258): take the basename of the cleaned client filename; reject it when
it equals "." or "/", otherwise accept it. -/
def sanitizeFilename (f : GoStr) : Option GoStr :=
  if goBase (goClean f) = ['.'] ∨ goBase (goClean f) = ['/'] then none
  else some (goBase (goClean f))


/-- Application configuration (struct config in src/main.go). -/
structure Config where
  noEmbed : Bool
  storeDir : GoStr
  listenAddr : GoStr
  port : GoStr
deriving DecidableEq

/-- Default configuration (newConfig in src/main.go). -/
def newConfig : Config :=
  { noEmbed := false
    storeDir := "files".toList
    listenAddr := "localhost".toList
    port := "1323".toList }

/-- Model of Go net.JoinHostPort: bracket the host when it contains a
colon, then append a colon and the port. -/
def joinHostPort (host port : GoStr) : GoStr :=
  if ':' ∈ host then '[' :: host ++ ']' :: ':' :: port
  else host ++ ':' :: port

/-- Index of the last occurrence of a character, if any. -/
def lastIndexOf (c : Char) : List Char → Option Nat
  | [] => none
  | x :: xs =>
    match lastIndexOf c xs with
    | some i => some (i + 1)
    | none => if x = c then some 0 else none

/-- Model of Go net.SplitHostPort: split host and port at the last colon,
with bracketed-host handling; none models every error return. -/
def splitHostPort (hp : List Char) : Option (GoStr × GoStr) :=
  match lastIndexOf ':' hp with
  | none => none
  | some i =>
    match hp with
    | '[' :: _ =>
      match hp.findIdx? (fun c => c = ']') with
      | none => none
      | some en =>
        if en + 1 = hp.length then none
        else if en + 1 ≠ i then none
        else if '[' ∈ hp.drop 1 ∨ ']' ∈ hp.drop (en + 1) then none
        else some ((hp.take en).drop 1, hp.drop (i + 1))
    | _ =>
      if ':' ∈ hp.take i then none
      else if '[' ∈ hp ∨ ']' ∈ hp then none
      else some (hp.take i, hp.drop (i + 1))

/-- Model of parseCli (src/main.go lines 70-109) restricted to the flag
values it resolves into the configuration: each option argument is the
supplied flag value or, when the flag is absent, the default registered for
it (the newConfig value; for listen, joinHostPort of the default address and
port).  An unparsable listen value is fatal (none); an empty host part is
replaced by 0.0.0.0. -/
def parseCli (listenOpt : Option GoStr) (noEmbedOpt : Option Bool)
    (storeOpt : Option GoStr) : Option Config :=
  let c := newConfig
  match splitHostPort (listenOpt.getD (joinHostPort c.listenAddr c.port)) with
  | none => none
  | some hp =>
    some { noEmbed := noEmbedOpt.getD c.noEmbed
           storeDir := storeOpt.getD c.storeDir
           listenAddr := if hp.1 = [] then "0.0.0.0".toList else hp.1
           port := hp.2 }

/-- Filesystem contents of interest: the files the program has written,
keyed by the full path handed to os.Create, in creation order. -/
abbrev Store := List (GoStr × Bytes)

/-- Effect of os.Create followed by writing the given bytes: the entry at
the path is truncate-overwritten when present, created otherwise. -/
def writeStore : Store → GoStr → Bytes → Store
  | [], path, content => [(path, content)]
  | e :: rest, path, content =>
    if e.1 = path then (path, content) :: rest
    else e :: writeStore rest path content

/-- Content of the entry at a path, if present. -/
def lookupStore : Store → GoStr → Option Bytes
  | [], _ => none
  | e :: rest, path => if e.1 = path then some e.2 else lookupStore rest path

/-- The view data built by listFiles: a page title and the file names. -/
structure Page where
  title : GoStr
  files : List GoStr
deriving DecidableEq

/-- A rendered listing response: HTTP status, template name, page model. -/
structure ListResponse where
  status : Nat
  template : GoStr
  page : Page
deriving DecidableEq

/-- Model of listCurrentDir (src/main.go lines 275-286): the argument is
the outcome of os.ReadDir on the store directory, none standing for any
read error; on error the empty slice is returned, otherwise the entry names
are accumulated by appending in enumeration order. -/
def listCurrentDir (readRes : Option (List GoStr)) : List GoStr :=
  match readRes with
  | none => []
  | some des => des.foldl (fun f e => f ++ [e]) []

/-- Model of listFiles (src/main.go lines 225-236): render main.html with
status 200 and a page holding the title Uploader and the directory names. -/
def listFiles (readRes : Option (List GoStr)) : ListResponse :=
  { status := 200
    template := "main.html".toList
    page := { title := "Uploader".toList, files := listCurrentDir readRes } }

/-- One multipart file part, together with oracles for the outcomes of the
three fallible filesystem steps taken for it: opening the part stream,
creating the destination file, and copying the bytes.  writtenOnFail is
whatever prefix of the bytes reached the destination when the copy fails. -/
structure Part where
  filename : GoStr
  content : Bytes
  openOk : Bool
  createOk : Bool
  copyOk : Bool
  writtenOnFail : Bytes
deriving DecidableEq

/-- Errors returned by uploadFiles. -/
inductive UploadErr where
  | malformedForm
  | openErr
  | invalidFilename
  | createErr
deriving DecidableEq

/-- Outcome of uploadFiles: an error return, a nil return without a body
(the copy-failure path), or delegation to listFiles. -/
inductive Resp where
  | err (e : UploadErr)
  | okEmpty
  | okPage (r : ListResponse)
deriving DecidableEq

/-- A parsed multipart form: file parts grouped by field name. -/
structure MultipartForm where
  fileFields : List (GoStr × List Part)
deriving DecidableEq

/-- Go map indexing form.File with a field name: the parts under the field,
the empty slice when the field is absent. -/
def formFiles (form : MultipartForm) (field : GoStr) : List Part :=
  match form.fileFields.find? (fun e => e.1 = field) with
  | none => []
  | some e => e.2

/-- The field name the handler reads. -/
def uploadField : GoStr := "upload".toList

/-- The per-part loop of uploadFiles (src/main.go lines 246-272): open the
part (error aborts), sanitize the filename (rejection aborts), join with
the store directory, create the destination (error aborts), copy the bytes
(a copy error returns nil immediately); when every part succeeds, delegate
to listFiles. -/
def uploadLoop (conf : Config) (readRes : Option (List GoStr)) :
    List Part → Store → Resp × Store
  | [], fsys => (Resp.okPage (listFiles readRes), fsys)
  | p :: rest, fsys =>
    if p.openOk = true then
      match sanitizeFilename p.filename with
      | none => (Resp.err UploadErr.invalidFilename, fsys)
      | some b =>
        if p.createOk = true then
          if p.copyOk = true then
            uploadLoop conf readRes rest
              (writeStore fsys (goJoin conf.storeDir b) p.content)
          else (Resp.okEmpty, writeStore fsys (goJoin conf.storeDir b) p.writtenOnFail)
        else (Resp.err UploadErr.createErr, fsys)
    else (Resp.err UploadErr.openErr, fsys)

/-- Model of uploadFiles (src/main.go lines 238-273): a failed multipart
parse (none) is returned as an error; otherwise the parts under the upload
field are processed in order by the loop. -/
def uploadFiles (conf : Config) (form : Option MultipartForm)
    (readRes : Option (List GoStr)) (fsys : Store) : Resp × Store :=
  match form with
  | none => (Resp.err UploadErr.malformedForm, fsys)
  | some f => uploadLoop conf readRes (formFiles f uploadField) fsys

/-- A part whose open, sanitization, create and copy all succeed. -/
def goodPart (q : Part) : Prop :=
  q.openOk = true ∧ sanitizeFilename q.filename ≠ none ∧
    q.createOk = true ∧ q.copyOk = true

instance (q : Part) : Decidable (goodPart q) := by
  unfold goodPart; infer_instance

/-- The store contents after the writes of a list of fully successful
parts, in order. -/
def applyWrites (conf : Config) (fsys : Store) (parts : List Part) : Store :=
  parts.foldl
    (fun fs q =>
      writeStore fs (goJoin conf.storeDir ((sanitizeFilename q.filename).getD []))
        q.content)
    fsys

/-- A single normal path component: nonempty, separator-free, and neither
"." nor "..". -/
def isNormalComp (s : List Char) : Prop :=
  s ≠ [] ∧ '/' ∉ s ∧ s ≠ ['.'] ∧ s ≠ ['.', '.']

instance (s : List Char) : Decidable (isNormalComp s) := by
  unfold isNormalComp; infer_instance

/-- A path lies strictly inside a directory when it names an entry directly
under it: the directory path, the separator, then one normal component. -/
def insideDir (dir p : List Char) : Prop :=
  ∃ name, isNormalComp name ∧ p = dir ++ '/' :: name

/-! Sanity checks of the embedding against the behavior of the Go library functions. -/

example : goClean "".toList = ['.'] := by decide
example : goClean "/".toList = ['/'] := by decide
example : goClean "a/../..".toList = "..".toList := by decide
example : goClean "/a/../..".toList = ['/'] := by decide
example : goClean "a//b/./c/".toList = "a/b/c".toList := by decide
example : goClean "../../x".toList = "../../x".toList := by decide
example : goBase "/x".toList = ['x'] := by decide
example : goBase "//".toList = ['/'] := by decide
example : goBase "a/b".toList = ['b'] := by decide
example : sanitizeFilename "../../x".toList = some ['x'] := by decide
example : sanitizeFilename "/x".toList = some ['x'] := by decide
example : sanitizeFilename ".".toList = none := by decide
example : sanitizeFilename "/".toList = none := by decide
example : sanitizeFilename "".toList = none := by decide
example : sanitizeFilename "..".toList = some "..".toList := by decide
example : goJoin "files".toList "..".toList = ['.'] := by decide
example : goJoin "files".toList "x.txt".toList = "files/x.txt".toList := by decide

example : parseCli none none none = some newConfig := by decide
example : (parseCli (some ":1323".toList) none none).map Config.listenAddr
    = some "0.0.0.0".toList := by decide
example : splitHostPort "localhost:1323".toList
    = some ("localhost".toList, "1323".toList) := by decide
example : listFiles none =
    { status := 200, template := "main.html".toList
      page := { title := "Uploader".toList, files := [] } } := by decide

/-! Helper lemmas. -/

theorem dropWhile_head_false {p : Char → Bool} {l : List Char} {x : Char}
    {xs : List Char} (h : l.dropWhile p = x :: xs) : p x = false := by
  have h2 := List.head?_dropWhile_not p l
  rw [h] at h2
  simpa using h2

theorem goBase_shape (cs : List Char) :
    goBase cs = ['/'] ∨ (goBase cs ≠ [] ∧ '/' ∉ goBase cs) := by
  unfold goBase
  by_cases h0 : cs = []
  · rw [if_pos h0]; right; exact ⟨by simp, by decide⟩
  · rw [if_neg h0]
    unfold goBaseStrip
    by_cases h1 : cs.reverse.dropWhile isSepChar = []
    · rw [if_pos h1]; left; rfl
    · rw [if_neg h1]
      right
      obtain ⟨x, xs, hx⟩ : ∃ x xs, cs.reverse.dropWhile isSepChar = x :: xs := by
        cases hd : cs.reverse.dropWhile isSepChar with
        | nil => exact absurd hd h1
        | cons a as => exact ⟨a, as, rfl⟩
      have hpx : isSepChar x = false := dropWhile_head_false hx
      constructor
      · rw [hx, List.takeWhile_cons, if_pos (by rw [hpx]; rfl)]
        simp
      · intro hm
        rw [List.mem_reverse] at hm
        have h2 := List.mem_takeWhile_imp hm
        simp [isSepChar] at h2

theorem goBase_ne_nil (cs : List Char) : goBase cs ≠ [] := by
  rcases goBase_shape cs with h | h
  · rw [h]; simp
  · exact h.1

theorem splitSeps_no_sep (cs : List Char) (h : '/' ∉ cs) : splitSeps cs = [cs] := by
  induction cs with
  | nil => rfl
  | cons c cs ih =>
    simp only [List.mem_cons, not_or] at h
    obtain ⟨h1, h2⟩ := h
    rw [splitSeps, if_neg (fun e => h1 e.symm), ih h2]

theorem splitSeps_append (xs ys : List Char) (h : '/' ∉ xs) :
    splitSeps (xs ++ '/' :: ys) = xs :: splitSeps ys := by
  induction xs with
  | nil => simp [splitSeps]
  | cons c cs ih =>
    simp only [List.mem_cons, not_or] at h
    obtain ⟨h1, h2⟩ := h
    rw [List.cons_append, splitSeps, if_neg (fun e => h1 e.symm), ih h2]

theorem intercalate_pair (a b : List Char) :
    List.intercalate ['/'] [a, b] = a ++ '/' :: b := by
  simp [List.intercalate, List.intersperse]

theorem goClean_append_comp (a b : List Char) (ha : isNormalComp a)
    (hb : isNormalComp b) : goClean (a ++ '/' :: b) = a ++ '/' :: b := by
  obtain ⟨ha1, ha2, ha3, ha4⟩ := ha
  obtain ⟨hb1, hb2, hb3, hb4⟩ := hb
  have hr : isRooted (a ++ '/' :: b) = false := by
    cases a with
    | nil => exact absurd rfl ha1
    | cons x xs =>
      have hx : x ≠ '/' := fun e => ha2 (by rw [e]; exact List.mem_cons_self '/' xs)
      simp [isRooted, hx]
  have hsplit : splitSeps (a ++ '/' :: b) = [a, b] := by
    rw [splitSeps_append a b ha2, splitSeps_no_sep b hb2]
  have hstack : cleanRev false [] (splitSeps (a ++ '/' :: b)) = [b, a] := by
    rw [hsplit]
    rw [cleanRev, if_neg (not_or.mpr ⟨ha1, ha3⟩), if_neg ha4]
    rw [cleanRev, if_neg (not_or.mpr ⟨hb1, hb3⟩), if_neg hb4]
    rfl
  unfold goClean
  simp only [hr, hstack, Bool.false_eq_true, if_false, List.reverse_cons,
    List.reverse_nil, List.nil_append, List.cons_append, intercalate_pair]
  rw [if_neg (List.append_ne_nil_of_left_ne_nil ha1 _)]

theorem foldl_append_singleton (l : List GoStr) :
    ∀ acc : List GoStr, l.foldl (fun f e => f ++ [e]) acc = acc ++ l := by
  induction l with
  | nil => intro acc; simp
  | cons x xs ih => intro acc; rw [List.foldl_cons, ih]; simp

theorem lookup_writeStore_self (fsys : Store) (path : GoStr) (c : Bytes) :
    lookupStore (writeStore fsys path c) path = some c := by
  induction fsys with
  | nil => simp [writeStore, lookupStore]
  | cons e rest ih =>
    by_cases he : e.1 = path
    · rw [writeStore, if_pos he, lookupStore, if_pos rfl]
    · rw [writeStore, if_neg he, lookupStore, if_neg he, ih]

theorem uploadLoop_append (conf : Config) (readRes : Option (List GoStr)) :
    ∀ (pre l : List Part) (fsys : Store), (∀ q ∈ pre, goodPart q) →
      uploadLoop conf readRes (pre ++ l) fsys
        = uploadLoop conf readRes l (applyWrites conf fsys pre) := by
  intro pre
  induction pre with
  | nil => intro l fsys _; rfl
  | cons q pre ih =>
    intro l fsys h
    obtain ⟨h1, h2, h3, h4⟩ := h q (List.mem_cons_self q pre)
    obtain ⟨b, hb⟩ : ∃ b, sanitizeFilename q.filename = some b := by
      cases hs : sanitizeFilename q.filename with
      | none => exact absurd hs h2
      | some b => exact ⟨b, rfl⟩
    rw [List.cons_append, uploadLoop, if_pos h1, hb]
    simp only
    rw [if_pos h3, if_pos h4]
    rw [ih l _ (fun r hr => h r (List.mem_cons_of_mem q hr))]
    simp only [applyWrites, List.foldl_cons, hb, Option.getD_some]

theorem formFiles_single (parts : List Part) :
    formFiles ⟨[(uploadField, parts)]⟩ uploadField = parts := by
  unfold formFiles
  rw [List.find?_cons_of_pos _ (by simp)]

/-! Claim theorems. -/

/-- C6: for every successfully read store directory, the list handler builds
a status-200 main.html response whose page has title Uploader and exactly
the directory entry names in the filesystem enumeration order: for N
entries, exactly those N names, none duplicated, none omitted, no sort
applied. -/
theorem C6_list_exact (des : List GoStr) :
    listFiles (some des) =
      { status := 200, template := "main.html".toList
        page := { title := "Uploader".toList, files := des } } := by
  unfold listFiles listCurrentDir
  simp only
  rw [foldl_append_singleton des []]
  simp

/-- C7: whenever reading the store directory fails, for any read error, the
list handler substitutes the empty file sequence and still renders main.html
with status 200 rather than an error response. -/
theorem C7_list_read_failure :
    listFiles none =
      { status := 200, template := "main.html".toList
        page := { title := "Uploader".toList, files := [] } } := rfl

/-- C9 counterexample: with no listen option on the command line the
resolved configuration is exactly the default one, whose listen address is
localhost, which differs from 0.0.0.0. -/
theorem C9_cex :
    parseCli none none none = some newConfig ∧
      newConfig.listenAddr = "localhost".toList ∧
      newConfig.port = "1323".toList ∧
      "localhost".toList ≠ "0.0.0.0".toList :=
  ⟨by decide, rfl, rfl, by decide⟩

/-- C9 amended: when no listen option is supplied the resolved listen
address and port default to localhost:1323, whatever the other options; the
address 0.0.0.0 is substituted only when an explicit listen value with an
empty host part, such as ":1323", is supplied. -/
theorem C9_default_listen (o : Option Bool) (s : Option GoStr) :
    (parseCli none o s).map Config.listenAddr = some "localhost".toList ∧
    (parseCli none o s).map Config.port = some "1323".toList ∧
    (parseCli (some ":1323".toList) o s).map Config.listenAddr
      = some "0.0.0.0".toList :=
  ⟨rfl, rfl, rfl⟩

/-- C2: sanitization fails, with the invalid-filename error returned before
anything is written for the part, exactly when the basename of the cleaned
filename is empty, ".", or "/"; otherwise it returns that basename. -/
theorem C2_sanitize_iff (f : GoStr) :
    (sanitizeFilename f = none ↔
      (goBase (goClean f) = [] ∨ goBase (goClean f) = ['.']
        ∨ goBase (goClean f) = ['/'])) ∧
    (∀ b, sanitizeFilename f = some b → b = goBase (goClean f)) ∧
    (∀ (conf : Config) (readRes : Option (List GoStr)) (p : Part)
        (rest : List Part) (fsys : Store),
      p.openOk = true → p.filename = f → sanitizeFilename f = none →
        uploadLoop conf readRes (p :: rest) fsys
          = (Resp.err UploadErr.invalidFilename, fsys)) := by
  refine ⟨⟨?_, ?_⟩, ?_, ?_⟩
  · intro h
    unfold sanitizeFilename at h
    by_cases hc : goBase (goClean f) = ['.'] ∨ goBase (goClean f) = ['/']
    · rcases hc with hc | hc
      · exact Or.inr (Or.inl hc)
      · exact Or.inr (Or.inr hc)
    · rw [if_neg hc] at h
      exact absurd h (by simp)
  · intro h
    rcases h with h | h | h
    · exact absurd h (goBase_ne_nil (goClean f))
    · unfold sanitizeFilename; rw [if_pos (Or.inl h)]
    · unfold sanitizeFilename; rw [if_pos (Or.inr h)]
  · intro b hb
    unfold sanitizeFilename at hb
    by_cases hc : goBase (goClean f) = ['.'] ∨ goBase (goClean f) = ['/']
    · rw [if_pos hc] at hb
      exact absurd hb (by simp)
    · rw [if_neg hc] at hb
      injection hb with hb
      exact hb.symm
  · intro conf readRes p rest fsys hopen hf hnone
    rw [uploadLoop, if_pos hopen, hf, hnone]

/-- Witness for C2 at the filename "/". -/
theorem C2_sanitize_iff_wit :
    sanitizeFilename ['/'] = none ∧
      uploadLoop newConfig none
          [{ filename := ['/'], content := [], openOk := true,
             createOk := true, copyOk := true, writtenOnFail := [] }] []
        = (Resp.err UploadErr.invalidFilename, []) := by
  have h := C2_sanitize_iff ['/']
  have hnone : sanitizeFilename ['/'] = none :=
    h.1.mpr (Or.inr (Or.inr (by decide)))
  exact ⟨hnone, h.2.2 newConfig none _ [] [] rfl rfl hnone⟩

/-- C3: when the destination file of a part was created and copying the
bytes fails, the handler returns nil with the bytes written so far in
place: no error is surfaced and the request is treated as a success. -/
theorem C3_copy_error_swallowed (conf : Config) (readRes : Option (List GoStr))
    (p : Part) (rest : List Part) (fsys : Store) (b : GoStr)
    (hopen : p.openOk = true) (hs : sanitizeFilename p.filename = some b)
    (hc : p.createOk = true) (hcp : p.copyOk = false) :
    uploadLoop conf readRes (p :: rest) fsys
      = (Resp.okEmpty,
         writeStore fsys (goJoin conf.storeDir b) p.writtenOnFail) ∧
    ∀ e, (uploadLoop conf readRes (p :: rest) fsys).1 ≠ Resp.err e := by
  have h : uploadLoop conf readRes (p :: rest) fsys
      = (Resp.okEmpty,
         writeStore fsys (goJoin conf.storeDir b) p.writtenOnFail) := by
    rw [uploadLoop, if_pos hopen, hs]
    simp only
    rw [if_pos hc, if_neg (by simp [hcp])]
  refine ⟨h, fun e => ?_⟩
  rw [h]
  simp

/-- Witness for C3 at a one-part upload whose copy fails. -/
theorem C3_copy_error_swallowed_wit :
    uploadLoop newConfig none
        [{ filename := ['a'], content := [1, 2], openOk := true,
           createOk := true, copyOk := false, writtenOnFail := [1] }] []
      = (Resp.okEmpty, writeStore [] (goJoin newConfig.storeDir ['a']) [1]) :=
  (C3_copy_error_swallowed newConfig none _ [] [] ['a'] rfl (by decide) rfl rfl).1

/-- C4: a one-part upload with a filename accepted by sanitization writes an
entry at the sanitized basename joined with the store directory whose
content is byte-identical to the part content, and a second upload of the
same filename truncate-overwrites that entry with the new content. -/
theorem C4_upload_overwrite (conf : Config) (r1 r2 : Option (List GoStr))
    (fsys : Store) (name : GoStr) (c1 c2 : Bytes) (b : GoStr)
    (hs : sanitizeFilename name = some b) :
    lookupStore
        (uploadFiles conf
          (some ⟨[(uploadField, [⟨name, c1, true, true, true, []⟩])]⟩) r1 fsys).2
        (goJoin conf.storeDir b) = some c1 ∧
    lookupStore
        (uploadFiles conf
          (some ⟨[(uploadField, [⟨name, c2, true, true, true, []⟩])]⟩) r2
          (uploadFiles conf
            (some ⟨[(uploadField, [⟨name, c1, true, true, true, []⟩])]⟩) r1
            fsys).2).2
        (goJoin conf.storeDir b) = some c2 := by
  have h1 : ∀ (r : Option (List GoStr)) (fs : Store) (c : Bytes),
      (uploadFiles conf
          (some ⟨[(uploadField, [⟨name, c, true, true, true, []⟩])]⟩) r fs).2
        = writeStore fs (goJoin conf.storeDir b) c := by
    intro r fs c
    unfold uploadFiles
    simp only [formFiles_single]
    simp [uploadLoop, hs]
  rw [h1, h1]
  exact ⟨lookup_writeStore_self fsys _ c1, lookup_writeStore_self _ _ c2⟩

/-- Witness for C4 at report.txt with contents abc then d. -/
theorem C4_upload_overwrite_wit :
    sanitizeFilename "report.txt".toList = some "report.txt".toList ∧
    lookupStore
        (uploadFiles newConfig
          (some ⟨[(uploadField,
            [⟨"report.txt".toList, [100], true, true, true, []⟩])]⟩) none
          (uploadFiles newConfig
            (some ⟨[(uploadField,
              [⟨"report.txt".toList, [97, 98, 99], true, true, true, []⟩])]⟩)
            none []).2).2
        (goJoin newConfig.storeDir "report.txt".toList) = some [100] :=
  ⟨by decide,
    (C4_upload_overwrite newConfig none none [] "report.txt".toList
      [97, 98, 99] [100] "report.txt".toList (by decide)).2⟩

/-- C5: parts are processed in the order received; at the first part whose
filename fails sanitization (all earlier parts having succeeded), the
handler stops, returns the invalid-filename error whatever the remaining
parts are, and the files written by the earlier parts remain written. -/
theorem C5_first_invalid_stops (conf : Config) (readRes : Option (List GoStr))
    (fsys : Store) (form : MultipartForm) (pre : List Part) (p : Part)
    (rest : List Part) (hf : formFiles form uploadField = pre ++ p :: rest)
    (hpre : ∀ q ∈ pre, goodPart q) (hopen : p.openOk = true)
    (hs : sanitizeFilename p.filename = none) :
    uploadFiles conf (some form) readRes fsys
      = (Resp.err UploadErr.invalidFilename, applyWrites conf fsys pre) := by
  unfold uploadFiles
  simp only
  rw [hf, uploadLoop_append conf readRes pre (p :: rest) fsys hpre]
  rw [uploadLoop, if_pos hopen, hs]

/-- Witness for C5: a good part followed by a part whose filename is ".". -/
theorem C5_first_invalid_stops_wit :
    uploadFiles newConfig
        (some ⟨[(uploadField,
          [⟨['a'], [5], true, true, true, []⟩, ⟨['.'], [7], true, true, true, []⟩])]⟩)
        none []
      = (Resp.err UploadErr.invalidFilename,
         applyWrites newConfig [] [⟨['a'], [5], true, true, true, []⟩]) :=
  C5_first_invalid_stops newConfig none [] _
    [⟨['a'], [5], true, true, true, []⟩] ⟨['.'], [7], true, true, true, []⟩ []
    (formFiles_single _) (by decide) rfl (by decide)

/-- C8: when every part under the upload field succeeds, including the case
of zero parts, the upload handler delegates to the list handler and returns
its response; with zero parts the store is left unchanged. -/
theorem C8_all_success_delegates (conf : Config) (readRes : Option (List GoStr))
    (fsys : Store) (form : MultipartForm)
    (hgood : ∀ q ∈ formFiles form uploadField, goodPart q) :
    uploadFiles conf (some form) readRes fsys
      = (Resp.okPage (listFiles readRes),
         applyWrites conf fsys (formFiles form uploadField)) ∧
    (formFiles form uploadField = [] →
      uploadFiles conf (some form) readRes fsys
        = (Resp.okPage (listFiles readRes), fsys)) := by
  have h : uploadFiles conf (some form) readRes fsys
      = (Resp.okPage (listFiles readRes),
         applyWrites conf fsys (formFiles form uploadField)) := by
    unfold uploadFiles
    simp only
    have h2 := uploadLoop_append conf readRes (formFiles form uploadField) [] fsys hgood
    rw [List.append_nil] at h2
    rw [h2, uploadLoop]
  refine ⟨h, fun hz => ?_⟩
  rw [h, hz]
  rfl

/-- Witness for C8 at the empty multipart form. -/
theorem C8_all_success_delegates_wit :
    uploadFiles newConfig (some ⟨[]⟩) none []
      = (Resp.okPage (listFiles none), []) :=
  (C8_all_success_delegates newConfig none [] ⟨[]⟩ (by decide)).2 rfl

/-- C10: when copying a part fails (all earlier parts having succeeded),
the handler returns at once: no later part is written, and the response is
neither a rendered listing nor an error response. -/
theorem C10_copy_fail_stops (conf : Config) (readRes : Option (List GoStr))
    (fsys : Store) (form : MultipartForm) (pre : List Part) (p : Part)
    (rest : List Part) (b : GoStr)
    (hf : formFiles form uploadField = pre ++ p :: rest)
    (hpre : ∀ q ∈ pre, goodPart q) (hopen : p.openOk = true)
    (hs : sanitizeFilename p.filename = some b) (hc : p.createOk = true)
    (hcp : p.copyOk = false) :
    uploadFiles conf (some form) readRes fsys
      = (Resp.okEmpty,
         writeStore (applyWrites conf fsys pre) (goJoin conf.storeDir b)
           p.writtenOnFail) ∧
    (∀ r, Resp.okEmpty ≠ Resp.okPage r) ∧ (∀ e, Resp.okEmpty ≠ Resp.err e) := by
  refine ⟨?_, fun r => by simp, fun e => by simp⟩
  unfold uploadFiles
  simp only
  rw [hf, uploadLoop_append conf readRes pre (p :: rest) fsys hpre]
  rw [uploadLoop, if_pos hopen, hs]
  simp only
  rw [if_pos hc, if_neg (by simp [hcp])]

/-- Witness for C10: a good part, then a part whose copy fails, then one
more part, which is never written. -/
theorem C10_copy_fail_stops_wit :
    uploadFiles newConfig
        (some ⟨[(uploadField,
          [⟨['a'], [5], true, true, true, []⟩,
           ⟨['b'], [6], true, true, false, []⟩,
           ⟨['c'], [7], true, true, true, []⟩])]⟩)
        none []
      = (Resp.okEmpty,
         writeStore (applyWrites newConfig [] [⟨['a'], [5], true, true, true, []⟩])
           (goJoin newConfig.storeDir ['b']) []) :=
  (C10_copy_fail_stops newConfig none [] _
    [⟨['a'], [5], true, true, true, []⟩] ⟨['b'], [6], true, true, false, []⟩
    [⟨['c'], [7], true, true, true, []⟩] ['b']
    (formFiles_single _) (by decide) rfl (by decide) rfl rfl).1

/-- C1 counterexample: the filename consisting of two dots is accepted by
sanitization unchanged, and joining it with the default store directory
yields the parent of the store directory, a path not inside it. -/
theorem C1_traversal_cex :
    sanitizeFilename ['.', '.'] = some ['.', '.'] ∧
    goJoin newConfig.storeDir ['.', '.'] = ['.'] ∧
    ¬ insideDir newConfig.storeDir ['.'] := by
  refine ⟨by decide, by decide, ?_⟩
  rintro ⟨name, hn, he⟩
  have h2 : newConfig.storeDir = 'f' :: 'i' :: 'l' :: 'e' :: 's' :: [] := rfl
  rw [h2] at he
  simp at he

/-- C1 amended: for a store directory that is a single normal path
component (as the default, files), every client filename is either rejected
by sanitization, or sanitized to the basename "..", whose joined path is
the parent of the store directory, or sanitized to a basename whose joined
path lies strictly inside the store directory. -/
theorem C1_sanitized_path_inside (conf : Config) (f : GoStr)
    (h : isNormalComp conf.storeDir) :
    sanitizeFilename f = none ∨
    sanitizeFilename f = some ['.', '.'] ∨
    ∃ b, sanitizeFilename f = some b ∧
      insideDir conf.storeDir (goJoin conf.storeDir b) := by
  rcases goBase_shape (goClean f) with hb | ⟨hb1, hb2⟩
  · left
    unfold sanitizeFilename
    rw [if_pos (Or.inr hb)]
  · by_cases hdot : goBase (goClean f) = ['.']
    · left
      unfold sanitizeFilename
      rw [if_pos (Or.inl hdot)]
    · have hslash : goBase (goClean f) ≠ ['/'] := by
        intro e
        rw [e] at hb2
        simp at hb2
      have hsome : sanitizeFilename f = some (goBase (goClean f)) := by
        unfold sanitizeFilename
        rw [if_neg (by rintro (hc | hc); exacts [hdot hc, hslash hc])]
      by_cases hdd : goBase (goClean f) = ['.', '.']
      · right; left
        rw [hsome, hdd]
      · right; right
        have hnc : isNormalComp (goBase (goClean f)) := ⟨hb1, hb2, hdot, hdd⟩
        refine ⟨goBase (goClean f), hsome, ?_⟩
        obtain ⟨hs1, hs2, hs3, hs4⟩ := h
        unfold goJoin
        rw [if_neg (fun hc => hs1 hc.1), if_neg hs1]
        rw [goClean_append_comp _ _ ⟨hs1, hs2, hs3, hs4⟩ hnc]
        exact ⟨goBase (goClean f), hnc, rfl⟩

/-- Witness for C1 at the default store directory and a traversal-bearing
filename that sanitizes to a normal basename. -/
theorem C1_sanitized_path_inside_wit :
    isNormalComp newConfig.storeDir ∧
    (sanitizeFilename "../../x".toList = none ∨
     sanitizeFilename "../../x".toList = some ['.', '.'] ∨
     ∃ b, sanitizeFilename "../../x".toList = some b ∧
       insideDir newConfig.storeDir (goJoin newConfig.storeDir b)) :=
  ⟨by decide, C1_sanitized_path_inside newConfig "../../x".toList (by decide)⟩

end Upl
